import Mathlib

/-!
Verification development for the cdev repository.

Strings are embedded as `List Char` (a string literal `"s"` is embedded as
`"s".data`).  The Python scripts under `scripts/python/` are embedded
directly from their sources; the policy-enforcement engine described by the
specification has no implementation under the sources provided, so its
components are modelled from the specification text (each such definition
carries a doc comment beginning with `Modelled from the spec:`).
-/

/-- Modelled from the spec: the kinds of intercepted actions
(`InterceptedRequest.actionKind`, spec section 3); the engine source that
would define this enum is not among the provided files. -/
inductive ActionKind where
  | shellExec
  | fileWrite
  | fileEdit
  | fileRead
deriving DecidableEq, Repr

/-- Modelled from the spec: write-style actions, the side of the read/write
asymmetry that the Resource Access Policy blocks (spec section 4.4). -/
def isWriteAction : ActionKind → Bool
  | ActionKind.fileWrite => true
  | ActionKind.fileEdit => true
  | _ => false

/-- Modelled from the spec: the reserved secrets marker that the
secret-file protection sub-policy scans target paths for. -/
def secretMarker : List Char := ".env".data

/-- Modelled from the spec: the whitelisted template suffixes that are
exempt from secret-file protection. -/
def secretWhitelist : List (List Char) := [".env.sample".data, ".env.example".data]

/-- Modelled from the spec: the secret-file protection sub-policy of the
Resource Access Policy (spec section 4.4): a write/edit whose target path
contains the secrets marker is blocked unless the path carries a
whitelisted template suffix; reads are always permitted. -/
def secretFileBlocked (a : ActionKind) (path : List Char) : Bool :=
  isWriteAction a
    && decide (secretMarker <:+: path)
    && !(secretWhitelist.any (fun w => decide (w <:+ path)))

/-- Whitespace characters recognised when normalising a command string. -/
def isWsChar (c : Char) : Bool :=
  c = ' ' || c = '\t' || c = '\n' || c = '\r'

/-- Splits a character list into whitespace-separated words; `cur` holds the
(reversed) word currently being read. -/
def wordsAux (cur : List Char) : List Char → List (List Char)
  | [] => if cur.isEmpty then [] else [cur.reverse]
  | c :: cs =>
    if isWsChar c then
      if cur.isEmpty then wordsAux [] cs else cur.reverse :: wordsAux [] cs
    else wordsAux (c :: cur) cs

/-- Modelled from the spec: command normalisation for the Command Danger
Classifier (spec section 4.1) — lower-case the text and collapse whitespace
by splitting it into tokens. -/
def lowerTokens (cmd : List Char) : List (List Char) :=
  wordsAux [] (cmd.map Char.toLower)

/-- Modelled from the spec: rule severities (`PolicyRule.severity`,
spec section 3). -/
inductive Severity where
  | block
  | warn
  | info
deriving DecidableEq, Repr

/-- Modelled from the spec: one named taxonomy of the Command Danger
Classifier — a category name, a matcher over the normalised token list
standing for the taxonomy's pattern set, and a severity. -/
structure Taxonomy where
  category : List Char
  matcher : List (List Char) → Bool
  severity : Severity

/-- Modelled from the spec: deletion verbs recognised by the deletion
taxonomy. -/
def deletionVerbs : List (List Char) :=
  ["rm".data, "rmdir".data, "shred".data, "unlink".data]

/-- A token that is a combined short flag: a single dash followed by
letters (e.g. `-rf`, `-fr`, `-rvf`). -/
def isShortFlag (t : List Char) : Bool :=
  match t with
  | '-' :: c :: _ => c != '-'
  | _ => false

/-- Modelled from the spec: a token spelling the recursive flag, in long
form or inside a combined short flag, in any order. -/
def isRecursiveFlag (t : List Char) : Bool :=
  t == "--recursive".data || (isShortFlag t && (t.drop 1).contains 'r')

/-- Modelled from the spec: a token spelling the force flag, in long form
or inside a combined short flag, in any order. -/
def isForceFlag (t : List Char) : Bool :=
  t == "--force".data || (isShortFlag t && (t.drop 1).contains 'f')

/-- Modelled from the spec: the deletion taxonomy's matcher — a deletion
verb together with a recursive flag and a force flag, each anywhere in the
token list. -/
def deletionMatcher (toks : List (List Char)) : Bool :=
  toks.any (fun t => deletionVerbs.contains t)
    && toks.any isRecursiveFlag && toks.any isForceFlag

/-- Modelled from the spec: truncation/overwrite idioms. -/
def overwriteMatcher (toks : List (List Char)) : Bool :=
  toks.contains ("truncate".data) || toks.contains (">".data)

/-- Modelled from the spec: archive-deletion operators. -/
def archiveMatcher (toks : List (List Char)) : Bool :=
  (toks.contains ("zip".data) || toks.contains ("7z".data)) && toks.contains ("-d".data)

/-- Modelled from the spec: version-control history-rewriting
subcommands. -/
def vcsMatcher (toks : List (List Char)) : Bool :=
  decide (["git".data, "reset".data] <:+: toks)
    || decide (["git".data, "filter-branch".data] <:+: toks)
    || decide (["git".data, "push".data, "--force".data] <:+: toks)

/-- Modelled from the spec: package-manager removal verbs. -/
def packageMatcher (toks : List (List Char)) : Bool :=
  decide (["npm".data, "uninstall".data] <:+: toks)
    || decide (["pip".data, "uninstall".data] <:+: toks)
    || decide (["apt".data, "remove".data] <:+: toks)
    || decide (["apt".data, "purge".data] <:+: toks)

/-- Modelled from the spec: data-definition/deletion statements. -/
def databaseMatcher (toks : List (List Char)) : Bool :=
  decide (["drop".data, "table".data] <:+: toks)
    || decide (["drop".data, "database".data] <:+: toks)
    || decide (["delete".data, "from".data] <:+: toks)

/-- Modelled from the spec: process/filesystem-destructive system calls. -/
def systemMatcher (toks : List (List Char)) : Bool :=
  toks.contains ("mkfs".data) || toks.contains ("dd".data)
    || toks.contains ("shutdown".data)
    || decide (["kill".data, "-9".data] <:+: toks)

/-- Modelled from the spec: the ordered list of taxonomies tested by the
Command Danger Classifier; at this layer a match is always Block, never
Warn (spec section 4.1). -/
def taxonomies : List Taxonomy :=
  [⟨"deletion".data, deletionMatcher, Severity.block⟩,
   ⟨"overwrite".data, overwriteMatcher, Severity.block⟩,
   ⟨"archive".data, archiveMatcher, Severity.block⟩,
   ⟨"version-control".data, vcsMatcher, Severity.block⟩,
   ⟨"package-manager".data, packageMatcher, Severity.block⟩,
   ⟨"database".data, databaseMatcher, Severity.block⟩,
   ⟨"system".data, systemMatcher, Severity.block⟩]

/-- Modelled from the spec: the classifier's result record
(spec section 4.1). -/
structure ClassifyResult where
  blocked : Bool
  matchedCategories : List (List Char)
deriving Repr

/-- Modelled from the spec: the taxonomies whose matcher fires on the
normalised command (spec section 4.1). -/
def matchedTaxonomies (cmd : List Char) : List Taxonomy :=
  taxonomies.filter (fun t => t.matcher (lowerTokens cmd))

/-- Modelled from the spec: `classify(commandText)` — normalise the
command, test every taxonomy, accumulate the matching categories, and
block when any taxonomy matches (spec section 4.1). -/
def classify (cmd : List Char) : ClassifyResult :=
  ⟨!((matchedTaxonomies cmd).map (fun t => t.category)).isEmpty,
   (matchedTaxonomies cmd).map (fun t => t.category)⟩

/-- Modelled from the spec: destructive verbs the Chain Obfuscation
Detector re-scans for (spec section 4.3). -/
def destructiveVerbs : List (List Char) :=
  ["rm".data, "dd".data, "mkfs".data, "shred".data, "truncate".data]

/-- Modelled from the spec: the chaining and substitution operators behind
which a destructive sub-command can hide — sequencing, conditional
chaining, piping and command substitution (spec section 4.3). -/
def chainOperators : List (List Char) :=
  [";".data, "&&".data, "||".data, "|".data, "`".data, "$(".data]

/-- Modelled from the spec: scans the command for the first occurrence of
the operator `op` and tests whether a destructive verb occurs anywhere
after it (spec section 4.3). -/
def verbAfterOperator (op : List Char) : List Char → Bool
  | [] => false
  | c :: cs =>
    if op <+: c :: cs then
      destructiveVerbs.any (fun v => decide (v <:+: (c :: cs).drop op.length))
    else verbAfterOperator op cs

/-- Modelled from the spec: `containsChainedDanger(commandText)` — true
when a destructive verb occurs after any chaining operator
(spec section 4.3). -/
def containsChainedDanger (cmd : List Char) : Bool :=
  chainOperators.any (fun op => verbAfterOperator op cmd)

/-- Modelled from the spec: a digest of a resource's current bytes, used
to detect change and invalidate stale confirmations (spec glossary).  The
engine's concrete hash function is not among the provided files; a djb2
style rolling hash over 64 bits stands in for it. -/
def contentHash (content : List Char) : Nat :=
  content.foldl (fun h c => (h * 33 + c.toNat) % 2 ^ 64) 5381

/-- Modelled from the spec: `ConfirmationState` — one record per gated
resource, holding the hash recorded at confirmation time and the time of
the confirmation (spec section 3). -/
structure ConfirmationState where
  resourceId : List Char
  recordedHash : Nat
  lastConfirmedAt : Nat
deriving DecidableEq, Repr

/-- Modelled from the spec: the TTL of a template acknowledgment,
24 hours expressed in seconds (spec section 3). -/
def confirmationTTL : Nat := 86400

/-- Modelled from the spec: the `Unconfirmed → Confirmed` transition —
record the template's current content hash and the confirmation time,
replacing any earlier record for the same resource (spec section 4.5). -/
def confirmTemplate (store : List ConfirmationState) (rid : List Char)
    (content : List Char) (now : Nat) : List ConfirmationState :=
  ⟨rid, contentHash content, now⟩ :: store.filter (fun st => st.resourceId != rid)

/-- Looks up the confirmation record for a gated resource. -/
def findConfirmation (store : List ConfirmationState) (rid : List Char) :
    Option ConfirmationState :=
  store.find? (fun st => st.resourceId == rid)

/-- Modelled from the spec: a confirmation is valid while the recorded
hash still matches the template's current content hash and the TTL has
not elapsed; a changed hash invalidates it and an elapsed TTL expires it
(spec section 4.5). -/
def confirmationValid (store : List ConfirmationState) (rid : List Char)
    (templateContent : List Char) (now : Nat) : Bool :=
  match findConfirmation store rid with
  | none => false
  | some st =>
    st.recordedHash == contentHash templateContent
      && decide (now ≤ st.lastConfirmedAt + confirmationTTL)

/-- Modelled from the spec: the gated-document policy — an edit of a
command file under a gated namespace is blocked exactly when the
namespace's template resource has no valid confirmation
(spec section 4.4). -/
def gatedEditBlocked (store : List ConfirmationState) (rid : List Char)
    (templateContent : List Char) (now : Nat) : Bool :=
  !confirmationValid store rid templateContent now

/-- Modelled from the spec: filenames allow-listed at the project root by
the root-layout policy (spec section 4.4). -/
def rootAllowList : List (List Char) :=
  ["README.md".data, "CHANGELOG.md".data, "LICENSE".data, "CLAUDE.md".data,
   "package.json".data, "package-lock.json".data]

/-- Modelled from the spec: forbidden root filename patterns — build-tool
configs, shell scripts, report/plan documents (spec section 4.4). -/
def forbiddenRootSuffixes : List (List Char) :=
  [".config.js".data, ".config.ts".data, ".config.mjs".data, ".sh".data,
   "-report.md".data, "-plan.md".data]

/-- Modelled from the spec: the fixed set of essential subdirectories
whose files are always permitted regardless of name (spec section 4.4). -/
def essentialDirs : List (List Char) :=
  ["src/".data, "config/".data, "scripts/".data, "docs/".data,
   "test/".data, ".claude/".data]

/-- A path with no directory separator resolves to the project root. -/
def isRootLevelPath (path : List Char) : Bool :=
  !path.contains '/'

/-- Modelled from the spec: the root-layout policy — a write/edit into an
essential subdirectory is always permitted; a write/edit resolving to the
project root is blocked unless the filename is allow-listed or matches no
forbidden pattern (spec section 4.4). -/
def rootLayoutBlocked (path : List Char) : Bool :=
  if essentialDirs.any (fun d => decide (d <+: path)) then false
  else if isRootLevelPath path then
    !rootAllowList.contains path
      && forbiddenRootSuffixes.any (fun s => decide (s <:+ path))
  else false

/-- Modelled from the spec: a field of the raw host request — either a
string value or a structured mapping of strings (spec section 6,
invocation contract). -/
inductive FieldVal where
  | fstr : List Char → FieldVal
  | fmap : List (List Char × List Char) → FieldVal
deriving DecidableEq, Repr

/-- Modelled from the spec: the raw structured request the engine
receives from the host (spec section 6). -/
structure RawRequest where
  fields : List (List Char × FieldVal)
deriving DecidableEq, Repr

/-- Looks up a field of a raw request by key. -/
def lookupField (fields : List (List Char × FieldVal)) (key : List Char) :
    Option FieldVal :=
  match fields.find? (fun kv => kv.fst == key) with
  | some kv => some kv.snd
  | none => none

/-- Looks up a key in a structured string mapping. -/
def lookupEntry (m : List (List Char × List Char)) (key : List Char) :
    Option (List Char) :=
  match m.find? (fun kv => kv.fst == key) with
  | some kv => some kv.snd
  | none => none

/-- Modelled from the spec: `InterceptedRequest` (spec section 3). -/
structure InterceptedRequest where
  actionKind : ActionKind
  targetPath : Option (List Char)
  commandText : Option (List Char)
deriving DecidableEq, Repr

/-- Modelled from the spec: parsing of the raw host request into an
`InterceptedRequest`; a request without a recognised tool name, without
structured input, or without the field its tool requires is malformed and
fails to parse (spec sections 6 and 7). -/
def parseRequest (r : RawRequest) : Option InterceptedRequest :=
  match lookupField r.fields ("tool_name".data), lookupField r.fields ("tool_input".data) with
  | some (FieldVal.fstr tool), some (FieldVal.fmap input) =>
    if tool == "Bash".data then
      match lookupEntry input ("command".data) with
      | some c => some ⟨ActionKind.shellExec, none, some c⟩
      | none => none
    else if tool == "Write".data then
      match lookupEntry input ("file_path".data) with
      | some p => some ⟨ActionKind.fileWrite, some p, none⟩
      | none => none
    else if tool == "Edit".data then
      match lookupEntry input ("file_path".data) with
      | some p => some ⟨ActionKind.fileEdit, some p, none⟩
      | none => none
    else if tool == "Read".data then
      match lookupEntry input ("file_path".data) with
      | some p => some ⟨ActionKind.fileRead, some p, none⟩
      | none => none
    else none
  | _, _ => none

/-- Modelled from the spec: the three decision outcomes
(spec section 3). -/
inductive Outcome where
  | approve
  | warn
  | block
deriving DecidableEq, Repr

/-- Modelled from the spec: a fixed set of sensitive path fragments the
Path Sensitivity Matcher scans the normalised command for
(spec section 4.2). -/
def dangerousPathFragments : List (List Char) :=
  ["/etc/".data, "~".data, "$home".data, "..".data, "*".data,
   ".git".data, "node_modules".data, ".env".data]

/-- Modelled from the spec: `containsDangerousPath(commandText)` — any
sensitive fragment anywhere in the lower-cased command text is dangerous,
independent of the verb (spec section 4.2). -/
def containsDangerousPath (cmd : List Char) : Bool :=
  dangerousPathFragments.any (fun f => decide (f <:+: cmd.map Char.toLower))

/-- Modelled from the spec: the Decision Aggregator's precedence over the
stateless policies — command danger classification, path sensitivity and
chain obfuscation for shell commands; secret-file and root-layout blocks
for writes and edits; the first Block short-circuits and the default is
Approve (spec section 4.6).  The stateful gated-document policy is
modelled separately by `gatedEditBlocked`. -/
def aggregate (req : InterceptedRequest) : Outcome :=
  match req.actionKind with
  | ActionKind.shellExec =>
    match req.commandText with
    | some c =>
      if (classify c).blocked || containsDangerousPath c || containsChainedDanger c then
        Outcome.block
      else Outcome.approve
    | none => Outcome.approve
  | ActionKind.fileWrite =>
    match req.targetPath with
    | some p =>
      if secretFileBlocked ActionKind.fileWrite p || rootLayoutBlocked p then
        Outcome.block
      else Outcome.approve
    | none => Outcome.approve
  | ActionKind.fileEdit =>
    match req.targetPath with
    | some p =>
      if secretFileBlocked ActionKind.fileEdit p || rootLayoutBlocked p then
        Outcome.block
      else Outcome.approve
    | none => Outcome.approve
  | ActionKind.fileRead => Outcome.approve

/-- Modelled from the spec: the engine's decision on one raw request — a
request that cannot be parsed is approved by default, a parsed request is
evaluated by the aggregator (spec section 7, case a). -/
def engineDecision (r : RawRequest) : Outcome :=
  match parseRequest r with
  | none => Outcome.approve
  | some req => aggregate req

/-- Modelled from the spec: `AuditEntry` — a monotonic sequence index
plus the intercepted request (spec section 3). -/
structure AuditEntry where
  sequence : Nat
  rawRequest : InterceptedRequest
deriving DecidableEq, Repr

/-- Modelled from the spec: appending one intercepted request to the
append-only Audit Log as the terminal step of an invocation
(spec sections 3 and 4.6). -/
def appendAudit (log : List AuditEntry) (req : InterceptedRequest) :
    List AuditEntry :=
  log ++ [⟨log.length, req⟩]

/-- Modelled from the spec: the effect of a sequence of engine
invocations on the Audit Log; the exclusive file lock demanded by the
concurrency model (spec section 5) serialises overlapping invocations, so
an execution is a fold of atomic appends in invocation order. -/
def runAuditAppends (log : List AuditEntry) (reqs : List InterceptedRequest) :
    List AuditEntry :=
  reqs.foldl appendAudit log

/-- The wrapper class of a Python string value in the YAML formatting
scripts: a plain `str`, the pyyaml `LiteralStr` subclass of `str`
(`scripts/python/test-yaml-formatting-v2.py`, lines 14-17), or the
ruamel.yaml `LiteralScalarString` class
(`scripts/python/test-ruamel-yaml.py`, line 12).  Both wrapper classes
behave as their underlying string; the wrapper only selects the literal
block style when dumping. -/
inductive StrWrap where
  | plain
  | literalStr
  | literalScalarString
deriving DecidableEq, Repr

mutual
/-- A Python value as handled by `process_for_yaml`: strings carrying
their wrapper class, numeric/boolean/None atoms, lists, and string-keyed
dicts in insertion order. -/
inductive PyVal where
  | vstr : StrWrap → List Char → PyVal
  | vint : Int → PyVal
  | vbool : Bool → PyVal
  | vnone : PyVal
  | vlist : PyList → PyVal
  | vdict : PyDict → PyVal
/-- A Python list of values. -/
inductive PyList where
  | nil : PyList
  | cons : PyVal → PyList → PyList
/-- A Python dict with string keys, in insertion order. -/
inductive PyDict where
  | nil : PyDict
  | cons : List Char → PyVal → PyDict → PyDict
end

mutual
/-- `process_for_yaml` from `scripts/python/test-yaml-formatting-v2.py`
(lines 29-38): a dict is rebuilt with the same keys and processed values,
a list is rebuilt with processed items, a string containing a newline is
wrapped as `LiteralStr`, and any other value is returned unchanged. -/
def process_for_yaml_v2 : PyVal → PyVal
  | PyVal.vdict kvs => PyVal.vdict (process_for_yaml_v2_dict kvs)
  | PyVal.vlist xs => PyVal.vlist (process_for_yaml_v2_list xs)
  | PyVal.vstr w s =>
    if '\n' ∈ s then PyVal.vstr StrWrap.literalStr s else PyVal.vstr w s
  | v => v
/-- The list comprehension inside `process_for_yaml`
(`test-yaml-formatting-v2.py`, line 34). -/
def process_for_yaml_v2_list : PyList → PyList
  | PyList.nil => PyList.nil
  | PyList.cons x xs =>
    PyList.cons (process_for_yaml_v2 x) (process_for_yaml_v2_list xs)
/-- The dict comprehension inside `process_for_yaml`
(`test-yaml-formatting-v2.py`, line 32). -/
def process_for_yaml_v2_dict : PyDict → PyDict
  | PyDict.nil => PyDict.nil
  | PyDict.cons k v rest =>
    PyDict.cons k (process_for_yaml_v2 v) (process_for_yaml_v2_dict rest)
end

mutual
/-- `process_for_yaml` from `scripts/python/test-ruamel-yaml.py`
(lines 59-67): identical control flow, but a string containing a newline
is wrapped as `LiteralScalarString`. -/
def process_for_yaml_ruamel : PyVal → PyVal
  | PyVal.vdict kvs => PyVal.vdict (process_for_yaml_ruamel_dict kvs)
  | PyVal.vlist xs => PyVal.vlist (process_for_yaml_ruamel_list xs)
  | PyVal.vstr w s =>
    if '\n' ∈ s then PyVal.vstr StrWrap.literalScalarString s else PyVal.vstr w s
  | v => v
/-- The list comprehension inside the ruamel `process_for_yaml`
(`test-ruamel-yaml.py`, line 63). -/
def process_for_yaml_ruamel_list : PyList → PyList
  | PyList.nil => PyList.nil
  | PyList.cons x xs =>
    PyList.cons (process_for_yaml_ruamel x) (process_for_yaml_ruamel_list xs)
/-- The dict comprehension inside the ruamel `process_for_yaml`
(`test-ruamel-yaml.py`, line 61). -/
def process_for_yaml_ruamel_dict : PyDict → PyDict
  | PyDict.nil => PyDict.nil
  | PyDict.cons k v rest =>
    PyDict.cons k (process_for_yaml_ruamel v) (process_for_yaml_ruamel_dict rest)
end

mutual
/-- Maps every string of a value back to a plain string, i.e. the value
as compared by Python `==`, which ignores the `str` subclass. -/
def stripWrap : PyVal → PyVal
  | PyVal.vstr _ s => PyVal.vstr StrWrap.plain s
  | PyVal.vlist xs => PyVal.vlist (stripWrapList xs)
  | PyVal.vdict kvs => PyVal.vdict (stripWrapDict kvs)
  | v => v
/-- `stripWrap` on lists. -/
def stripWrapList : PyList → PyList
  | PyList.nil => PyList.nil
  | PyList.cons x xs => PyList.cons (stripWrap x) (stripWrapList xs)
/-- `stripWrap` on dicts. -/
def stripWrapDict : PyDict → PyDict
  | PyDict.nil => PyDict.nil
  | PyDict.cons k v rest => PyDict.cons k (stripWrap v) (stripWrapDict rest)
end

/-- Identifies the two literal-block wrapper classes, keeping only
whether a string is wrapped. -/
def canonWrap : StrWrap → StrWrap
  | StrWrap.plain => StrWrap.plain
  | StrWrap.literalStr => StrWrap.literalStr
  | StrWrap.literalScalarString => StrWrap.literalStr

mutual
/-- Maps every string wrapper of a value through `canonWrap`, the common
abstraction of the pyyaml and ruamel representations. -/
def canonVal : PyVal → PyVal
  | PyVal.vstr w s => PyVal.vstr (canonWrap w) s
  | PyVal.vlist xs => PyVal.vlist (canonValList xs)
  | PyVal.vdict kvs => PyVal.vdict (canonValDict kvs)
  | v => v
/-- `canonVal` on lists. -/
def canonValList : PyList → PyList
  | PyList.nil => PyList.nil
  | PyList.cons x xs => PyList.cons (canonVal x) (canonValList xs)
/-- `canonVal` on dicts. -/
def canonValDict : PyDict → PyDict
  | PyDict.nil => PyDict.nil
  | PyDict.cons k v rest => PyDict.cons k (canonVal v) (canonValDict rest)
end

/-- The `\s` character class of the Python `re` module, over ASCII. -/
def isPyWs (c : Char) : Bool :=
  c = ' ' || c = '\t' || c = '\n' || c = '\r'
    || c.toNat = 11 || c.toNat = 12

/-- The `[\d.]` character class of the version pattern in
`scripts/python/postpublish.py` (line 166). -/
def isVersionChar (c : Char) : Bool :=
  c.isDigit || c = '.'

/-- The literal head of the version pattern
`(\*\*Version\*\*:\s+)[\d.]+(\s*)` of `postpublish.py` (line 166). -/
def versionPatLit : List Char := "**Version**:".data

/-- One match of the version pattern: the `\s+` run completing capture
group 1, the matched `[\d.]+` version text, capture group 2 (`\s*`), and
the text after the whole match. -/
structure VersionMatch where
  wsAfter : List Char
  matchedVersion : List Char
  wsTrail : List Char
  restAfter : List Char
deriving DecidableEq, Repr

/-- Matches the version pattern at the start of `s`, with the greedy
maximal-munch semantics the pattern has under Python `re` (its three
character classes are pairwise disjoint, so greediness never needs
backtracking). -/
def matchVersionAt (s : List Char) : Option VersionMatch :=
  if versionPatLit <+: s then
    let t := s.drop versionPatLit.length
    let ws := t.takeWhile isPyWs
    if ws.isEmpty then none
    else
      let t2 := t.drop ws.length
      let ver := t2.takeWhile isVersionChar
      if ver.isEmpty then none
      else
        let t3 := t2.drop ver.length
        let g2 := t3.takeWhile isPyWs
        some ⟨ws, ver, g2, t3.drop g2.length⟩
  else none

/-- A successful match consumes at least the literal head and one
whitespace character, so the remaining text is strictly shorter. -/
theorem matchVersionAt_rest_length_lt {s : List Char} {m : VersionMatch}
    (h : matchVersionAt s = some m) : m.restAfter.length < s.length := by
  simp only [matchVersionAt] at h
  split at h
  case isTrue hpre =>
    split at h
    case isTrue => exact absurd h (by simp)
    case isFalse hws =>
      split at h
      case isTrue => exact absurd h (by simp)
      case isFalse hver =>
        have hrest := congrArg VersionMatch.restAfter (Option.some_injective _ h)
        simp only at hrest
        have hnil : (s.drop versionPatLit.length).takeWhile isPyWs ≠ [] := by
          intro hn
          exact hws (by simp [hn])
        have hws1 : 0 < ((s.drop versionPatLit.length).takeWhile isPyWs).length :=
          List.length_pos.mpr hnil
        have hwsle : ((s.drop versionPatLit.length).takeWhile isPyWs).length ≤
            (s.drop versionPatLit.length).length :=
          (List.takeWhile_sublist _).length_le
        rw [← hrest]
        simp only [List.length_drop] at hwsle ⊢
        omega
  case isFalse => exact absurd h (by simp)

/-- The global substitution `re.sub(version_pattern, new_version_line,
readme_content)` of `update_readme_version` (`postpublish.py`,
lines 167-176): scan left to right, replace each non-overlapping match by
group 1, the new version and group 2, and continue after the match. -/
def substituteVersion (version : List Char) (s : List Char) : List Char :=
  match h : matchVersionAt s with
  | some m =>
    versionPatLit ++ m.wsAfter ++ version ++ m.wsTrail
      ++ substituteVersion version m.restAfter
  | none =>
    match s with
    | [] => []
    | c :: cs => c :: substituteVersion version cs
termination_by s.length
decreasing_by
  · exact matchVersionAt_rest_length_lt h
  · simp

/-- The check `re.search(version_pattern, readme_content)` of
`update_readme_version` (`postpublish.py`, lines 169-172): the pattern
matches at some position of the text. -/
def searchVersion (s : List Char) : Bool :=
  s.tails.any (fun t => (matchVersionAt t).isSome)

/-- `update_readme_version` from `scripts/python/postpublish.py`
(lines 148-187), modelling the final content of `README.md`: if the
version pattern is not found the function returns without writing; if the
substitution leaves the content unchanged the function returns without
writing; otherwise the substituted content is written back. -/
def update_readme_version (readme : List Char) (version : List Char) : List Char :=
  if searchVersion readme then
    if substituteVersion version readme = readme then readme
    else substituteVersion version readme
  else readme

/-- Claim C2.  For every path ending in `.env`, a write or an edit is
blocked while a read is approved; for every path ending in `.env.sample`
or `.env.example`, reads and writes are both approved. -/
theorem secret_file_policy_env_suffixes (p q r : List Char)
    (hp : ".env".data <:+ p)
    (hq : ".env.sample".data <:+ q)
    (hr : ".env.example".data <:+ r) :
    secretFileBlocked ActionKind.fileWrite p = true ∧
    secretFileBlocked ActionKind.fileEdit p = true ∧
    secretFileBlocked ActionKind.fileRead p = false ∧
    secretFileBlocked ActionKind.fileWrite q = false ∧
    secretFileBlocked ActionKind.fileEdit q = false ∧
    secretFileBlocked ActionKind.fileRead q = false ∧
    secretFileBlocked ActionKind.fileWrite r = false ∧
    secretFileBlocked ActionKind.fileEdit r = false ∧
    secretFileBlocked ActionKind.fileRead r = false := by
  have hmark : secretMarker <:+: p := hp.isInfix
  have hno : ∀ w ∈ secretWhitelist, ¬(w <:+ p) := by
    intro w hw hcon
    have hcmp := List.suffix_or_suffix_of_suffix hcon hp
    simp only [secretWhitelist, List.mem_cons, List.mem_singleton] at hw
    rcases hw with rfl | hw
    · rcases hcmp with h | h
      · exact absurd h (by decide)
      · exact absurd h (by decide)
    · rcases hw with rfl | hw
      · rcases hcmp with h | h
        · exact absurd h (by decide)
        · exact absurd h (by decide)
      · exact absurd hw (List.not_mem_nil w)
  have hpAny : secretWhitelist.any (fun w => decide (w <:+ p)) = false := by
    simp only [List.any_eq_false, decide_eq_true_eq]
    exact hno
  have hqAny : secretWhitelist.any (fun w => decide (w <:+ q)) = true := by
    refine List.any_eq_true.mpr ⟨".env.sample".data, ?_, by simpa using hq⟩
    simp [secretWhitelist]
  have hrAny : secretWhitelist.any (fun w => decide (w <:+ r)) = true := by
    refine List.any_eq_true.mpr ⟨".env.example".data, ?_, by simpa using hr⟩
    simp [secretWhitelist]
  refine ⟨?_, ?_, rfl, ?_, ?_, rfl, ?_, ?_, rfl⟩
  · simp [secretFileBlocked, isWriteAction, hmark, hpAny]
  · simp [secretFileBlocked, isWriteAction, hmark, hpAny]
  · simp [secretFileBlocked, hqAny]
  · simp [secretFileBlocked, hqAny]
  · simp [secretFileBlocked, hrAny]
  · simp [secretFileBlocked, hrAny]

/-- Witness for claim C2 at the concrete paths `config/.env`,
`.env.sample` and `tools/.env.example`. -/
theorem secret_file_policy_env_suffixes_witness :
    (".env".data <:+ "config/.env".data) ∧
    (".env.sample".data <:+ ".env.sample".data) ∧
    (".env.example".data <:+ "tools/.env.example".data) ∧
    secretFileBlocked ActionKind.fileWrite ("config/.env".data) = true ∧
    secretFileBlocked ActionKind.fileRead ("config/.env".data) = false ∧
    secretFileBlocked ActionKind.fileWrite (".env.sample".data) = false ∧
    secretFileBlocked ActionKind.fileWrite ("tools/.env.example".data) = false := by
  have h := secret_file_policy_env_suffixes ("config/.env".data) ".env.sample".data
    "tools/.env.example".data (by decide) (by decide) (by decide)
  exact ⟨by decide, by decide, by decide, h.1, h.2.2.1, h.2.2.2.1, h.2.2.2.2.2.2.1⟩

/-- Claim C1.  Every command containing a deletion verb together with a
recursive and a force flag — in any order and any recognised spelling —
is classified with `blocked = true`, the deletion category is reported,
and every taxonomy matching the command has severity Block, never Warn. -/
theorem classify_deletion_recursive_force (cmd : List Char)
    (h : ∃ v ∈ lowerTokens cmd, v ∈ deletionVerbs ∧
      (∃ f ∈ lowerTokens cmd, isRecursiveFlag f = true) ∧
      (∃ g ∈ lowerTokens cmd, isForceFlag g = true)) :
    (classify cmd).blocked = true ∧
    "deletion".data ∈ (classify cmd).matchedCategories ∧
    ∀ t ∈ matchedTaxonomies cmd, t.severity = Severity.block := by
  obtain ⟨v, hv, hvd, ⟨f, hf, hfr⟩, ⟨g, hg, hgf⟩⟩ := h
  have hmatch : deletionMatcher (lowerTokens cmd) = true := by
    simp only [deletionMatcher, Bool.and_eq_true, List.any_eq_true]
    exact ⟨⟨⟨v, hv, by simp [List.contains, hvd]⟩, ⟨f, hf, hfr⟩⟩, ⟨g, hg, hgf⟩⟩
  have hdel : (⟨"deletion".data, deletionMatcher, Severity.block⟩ : Taxonomy) ∈
      matchedTaxonomies cmd := by
    refine List.mem_filter.mpr ⟨?_, ?_⟩
    · simp [taxonomies]
    · simpa using hmatch
  have hcat : "deletion".data ∈ (classify cmd).matchedCategories :=
    List.mem_map.mpr ⟨_, hdel, rfl⟩
  refine ⟨?_, hcat, ?_⟩
  · have hne : (classify cmd).matchedCategories ≠ [] := List.ne_nil_of_mem hcat
    simp only [classify] at hne ⊢
    simp [List.isEmpty_eq_false.mpr hne]
  · intro t ht
    have hmem := (List.mem_filter.mp ht).1
    simp only [taxonomies, List.mem_cons, List.not_mem_nil, or_false] at hmem
    rcases hmem with rfl | rfl | rfl | rfl | rfl | rfl | rfl <;> rfl

/-- Witness for claim C1 at the concrete command `sudo RM -fr /tmp`. -/
theorem classify_deletion_recursive_force_witness :
    (∃ v ∈ lowerTokens ("sudo RM -fr /tmp".data), v ∈ deletionVerbs ∧
      (∃ f ∈ lowerTokens ("sudo RM -fr /tmp".data), isRecursiveFlag f = true) ∧
      (∃ g ∈ lowerTokens ("sudo RM -fr /tmp".data), isForceFlag g = true)) ∧
    (classify ("sudo RM -fr /tmp".data)).blocked = true ∧
    "deletion".data ∈ (classify ("sudo RM -fr /tmp".data)).matchedCategories := by
  have hh : ∃ v ∈ lowerTokens ("sudo RM -fr /tmp".data), v ∈ deletionVerbs ∧
      (∃ f ∈ lowerTokens ("sudo RM -fr /tmp".data), isRecursiveFlag f = true) ∧
      (∃ g ∈ lowerTokens ("sudo RM -fr /tmp".data), isForceFlag g = true) := by decide
  have hc := classify_deletion_recursive_force ("sudo RM -fr /tmp".data) hh
  exact ⟨hh, hc.1, hc.2.1⟩

/-- Two suffixes of the same list are comparable; the shorter one is a
suffix of the longer one. -/
theorem suffix_of_suffix_of_length_le {l₁ l₂ l₃ : List Char}
    (h1 : l₁ <:+ l₃) (h2 : l₂ <:+ l₃) (hlen : l₁.length ≤ l₂.length) :
    l₁ <:+ l₂ := by
  rcases List.suffix_or_suffix_of_suffix h1 h2 with h | h
  · exact h
  · rw [h.eq_of_length_le hlen]

/-- Whenever the operator `op` followed (not necessarily immediately) by a
destructive verb occurs as a suffix pattern of the scanned text,
`verbAfterOperator` reports it. -/
theorem verbAfterOperator_of_suffix (op t : List Char) (hop : op ≠ [])
    (hverb : ∃ v ∈ destructiveVerbs, v <:+: t) :
    ∀ s : List Char, op ++ t <:+ s → verbAfterOperator op s = true := by
  obtain ⟨v, hv, hvt⟩ := hverb
  intro s
  induction s with
  | nil =>
    intro hsuf
    have := List.eq_nil_of_suffix_nil hsuf
    exact absurd (List.append_eq_nil.mp this).1 hop
  | cons c cs ih =>
    intro hsuf
    rw [verbAfterOperator]
    by_cases hpre : op <+: c :: cs
    · rw [if_pos hpre]
      have h1 : t <:+ c :: cs := (List.suffix_append op t).trans hsuf
      have h2 : (c :: cs).drop op.length <:+ c :: cs := List.drop_suffix _ _
      have hlen : t.length ≤ ((c :: cs).drop op.length).length := by
        have := hsuf.length_le
        simp only [List.length_append] at this
        simp only [List.length_drop]
        omega
      have ht : t <:+ (c :: cs).drop op.length :=
        suffix_of_suffix_of_length_le h1 h2 hlen
      refine List.any_eq_true.mpr ⟨v, hv, ?_⟩
      exact decide_eq_true (hvt.trans ht.isInfix)
    · rw [if_neg hpre]
      rcases List.suffix_cons_iff.mp hsuf with heq | htail
      · exact absurd (heq ▸ List.prefix_append op t) hpre
      · exact ih htail

/-- Claim C3.  For every command in which a destructive verb occurs after
a chaining or substitution operator — sequencing, conditional chaining,
piping, backtick or dollar-paren command substitution — the Chain
Obfuscation Detector returns true, regardless of where in the command the
chained segment sits (in particular the destructive verb need not be in
head position). -/
theorem chain_obfuscation_detected (cmd : List Char)
    (h : ∃ op ∈ chainOperators, ∃ pre suf : List Char,
      cmd = pre ++ op ++ suf ∧ ∃ v ∈ destructiveVerbs, v <:+: suf) :
    containsChainedDanger cmd = true := by
  obtain ⟨op, hopmem, pre, suf, rfl, hverb⟩ := h
  refine List.any_eq_true.mpr ⟨op, hopmem, ?_⟩
  have hop : op ≠ [] := by
    simp only [chainOperators, List.mem_cons, List.not_mem_nil, or_false] at hopmem
    rcases hopmem with rfl | rfl | rfl | rfl | rfl | rfl <;> decide
  have hsuf : op ++ suf <:+ pre ++ op ++ suf := by
    rw [List.append_assoc]
    exact List.suffix_append pre (op ++ suf)
  exact verbAfterOperator_of_suffix op suf hop hverb _ hsuf

/-- Witness for claim C3 at the concrete command `echo ok && rm -rf /`,
whose destructive verb `rm` is not in head position. -/
theorem chain_obfuscation_detected_witness :
    ("echo ok && rm -rf /".data =
      "echo ok ".data ++ "&&".data ++ " rm -rf /".data) ∧
    ("rm".data <:+: " rm -rf /".data) ∧
    containsChainedDanger ("echo ok && rm -rf /".data) = true := by
  have h := chain_obfuscation_detected ("echo ok && rm -rf /".data)
    ⟨"&&".data, by decide, "echo ok ".data, " rm -rf /".data, by decide,
     "rm".data, by decide, by decide⟩
  exact ⟨by decide, by decide, h⟩

/-- Claim C4.  Confirming a template and then editing a command file under
its namespace within the TTL is approved; if the template's content then
changes so that its hash no longer matches the recorded hash, and no
re-confirmation occurs, the next edit attempt is blocked. -/
theorem gated_document_confirmation_cycle (store : List ConfirmationState)
    (rid content newContent : List Char) (now later : Nat)
    (httl : later ≤ now + confirmationTTL)
    (hchange : contentHash newContent ≠ contentHash content) :
    gatedEditBlocked (confirmTemplate store rid content now) rid content later = false ∧
    gatedEditBlocked (confirmTemplate store rid content now) rid newContent later = true := by
  have hfind : findConfirmation (confirmTemplate store rid content now) rid =
      some ⟨rid, contentHash content, now⟩ := by
    simp [findConfirmation, confirmTemplate, List.find?_cons]
  constructor
  · simp [gatedEditBlocked, confirmationValid, hfind, httl]
  · simp [gatedEditBlocked, confirmationValid, hfind, httl]
    exact fun heq => absurd heq.symm hchange

/-- Witness for claim C4: a template confirmed at time 0 may be edited an
hour later, and after the template content changes from `v1` to `v2` the
edit is blocked again. -/
theorem gated_document_confirmation_cycle_witness :
    (3600 ≤ 0 + confirmationTTL) ∧
    (contentHash ("v2".data) ≠ contentHash ("v1".data)) ∧
    gatedEditBlocked (confirmTemplate [] "agent-os".data ("v1".data) 0)
      "agent-os".data ("v1".data) 3600 = false ∧
    gatedEditBlocked (confirmTemplate [] "agent-os".data ("v1".data) 0)
      "agent-os".data ("v2".data) 3600 = true := by
  have h := gated_document_confirmation_cycle [] "agent-os".data ("v1".data)
    "v2".data 0 3600 (by decide) (by decide)
  exact ⟨by decide, by decide, h.1, h.2⟩

/-- Claim C5.  Under the root-layout policy a write of `README.md` at the
project root is approved, a write of `webpack.config.js` at the root is
blocked, and a write of any file under the `src/` directory is approved
regardless of its name. -/
theorem root_layout_policy_cases :
    rootLayoutBlocked ("README.md".data) = false ∧
    rootLayoutBlocked ("webpack.config.js".data) = true ∧
    ∀ name : List Char, rootLayoutBlocked ("src/".data ++ name) = false := by
  refine ⟨by decide, by decide, ?_⟩
  intro name
  have hany : essentialDirs.any (fun d => decide (d <+: "src/".data ++ name)) = true := by
    refine List.any_eq_true.mpr ⟨"src/".data, ?_, ?_⟩
    · simp [essentialDirs]
    · exact decide_eq_true (List.prefix_append ("src/".data) name)
  unfold rootLayoutBlocked
  rw [if_pos hany]

/-- Reading back the requests of the log after a run of appends yields the
old requests followed by the appended requests in invocation order. -/
theorem runAuditAppends_map_raw (reqs : List InterceptedRequest) :
    ∀ log : List AuditEntry,
      (runAuditAppends log reqs).map AuditEntry.rawRequest =
        log.map AuditEntry.rawRequest ++ reqs := by
  induction reqs with
  | nil => intro log; simp [runAuditAppends]
  | cons r rs ih =>
    intro log
    simp only [runAuditAppends, List.foldl_cons]
    rw [show List.foldl appendAudit (appendAudit log r) rs =
      runAuditAppends (appendAudit log r) rs from rfl, ih (appendAudit log r)]
    simp [appendAudit]

/-- A run of appends grows the log by exactly one entry per request. -/
theorem runAuditAppends_length (reqs : List InterceptedRequest) :
    ∀ log : List AuditEntry,
      (runAuditAppends log reqs).length = log.length + reqs.length := by
  induction reqs with
  | nil => intro log; simp [runAuditAppends]
  | cons r rs ih =>
    intro log
    simp only [runAuditAppends, List.foldl_cons]
    rw [show List.foldl appendAudit (appendAudit log r) rs =
      runAuditAppends (appendAudit log r) rs from rfl, ih (appendAudit log r)]
    simp [appendAudit]
    omega

/-- A run of appends never mutates or removes the entries already in the
log: the old log is a prefix of the new one. -/
theorem runAuditAppends_prefix (reqs : List InterceptedRequest) :
    ∀ log : List AuditEntry, log <+: runAuditAppends log reqs := by
  induction reqs with
  | nil => intro log; simp [runAuditAppends]
  | cons r rs ih =>
    intro log
    simp only [runAuditAppends, List.foldl_cons]
    exact (List.prefix_append log [⟨log.length, r⟩]).trans (ih (appendAudit log r))

/-- Claim C6.  For every run of N invocations appending their requests to
the Audit Log, reading the log back yields exactly N more entries, in
invocation order, with every previously present entry preserved unchanged
(the log is append-only: nothing is lost, duplicated, mutated or
removed).  Overlapping invocations are serialised by the exclusive lock
of the concurrency model, so a run is a fold of atomic appends. -/
theorem audit_log_append_order (log : List AuditEntry)
    (reqs : List InterceptedRequest) :
    (runAuditAppends log reqs).map AuditEntry.rawRequest =
      log.map AuditEntry.rawRequest ++ reqs ∧
    (runAuditAppends log reqs).length = log.length + reqs.length ∧
    log <+: runAuditAppends log reqs :=
  ⟨runAuditAppends_map_raw reqs log, runAuditAppends_length reqs log,
   runAuditAppends_prefix reqs log⟩

/-- Claim C7.  Every malformed — unparseable — request is approved by
default rather than blocked. -/
theorem malformed_request_approved (r : RawRequest)
    (h : parseRequest r = none) :
    engineDecision r = Outcome.approve := by
  simp [engineDecision, h]

/-- Witness for claim C7 at the concrete malformed request with no fields
at all. -/
theorem malformed_request_approved_witness :
    parseRequest ⟨[]⟩ = none ∧ engineDecision ⟨[]⟩ = Outcome.approve :=
  ⟨rfl, malformed_request_approved ⟨[]⟩ rfl⟩

mutual
/-- As plain data, the pyyaml `process_for_yaml` returns its input. -/
theorem stripWrap_process_v2 : (v : PyVal) →
    stripWrap (process_for_yaml_v2 v) = stripWrap v
  | PyVal.vstr w s => by
    by_cases h : '\n' ∈ s <;> simp [process_for_yaml_v2, stripWrap, h]
  | PyVal.vint _ => rfl
  | PyVal.vbool _ => rfl
  | PyVal.vnone => rfl
  | PyVal.vlist xs => by
    simp [process_for_yaml_v2, stripWrap, stripWrap_process_v2_list xs]
  | PyVal.vdict kvs => by
    simp [process_for_yaml_v2, stripWrap, stripWrap_process_v2_dict kvs]
/-- List case of `stripWrap_process_v2`. -/
theorem stripWrap_process_v2_list : (xs : PyList) →
    stripWrapList (process_for_yaml_v2_list xs) = stripWrapList xs
  | PyList.nil => rfl
  | PyList.cons x xs => by
    simp [process_for_yaml_v2_list, stripWrapList, stripWrap_process_v2 x,
      stripWrap_process_v2_list xs]
/-- Dict case of `stripWrap_process_v2`. -/
theorem stripWrap_process_v2_dict : (kvs : PyDict) →
    stripWrapDict (process_for_yaml_v2_dict kvs) = stripWrapDict kvs
  | PyDict.nil => rfl
  | PyDict.cons k v rest => by
    simp [process_for_yaml_v2_dict, stripWrapDict, stripWrap_process_v2 v,
      stripWrap_process_v2_dict rest]
end

mutual
/-- As plain data, the ruamel `process_for_yaml` returns its input. -/
theorem stripWrap_process_ruamel : (v : PyVal) →
    stripWrap (process_for_yaml_ruamel v) = stripWrap v
  | PyVal.vstr w s => by
    by_cases h : '\n' ∈ s <;> simp [process_for_yaml_ruamel, stripWrap, h]
  | PyVal.vint _ => rfl
  | PyVal.vbool _ => rfl
  | PyVal.vnone => rfl
  | PyVal.vlist xs => by
    simp [process_for_yaml_ruamel, stripWrap, stripWrap_process_ruamel_list xs]
  | PyVal.vdict kvs => by
    simp [process_for_yaml_ruamel, stripWrap, stripWrap_process_ruamel_dict kvs]
/-- List case of `stripWrap_process_ruamel`. -/
theorem stripWrap_process_ruamel_list : (xs : PyList) →
    stripWrapList (process_for_yaml_ruamel_list xs) = stripWrapList xs
  | PyList.nil => rfl
  | PyList.cons x xs => by
    simp [process_for_yaml_ruamel_list, stripWrapList, stripWrap_process_ruamel x,
      stripWrap_process_ruamel_list xs]
/-- Dict case of `stripWrap_process_ruamel`. -/
theorem stripWrap_process_ruamel_dict : (kvs : PyDict) →
    stripWrapDict (process_for_yaml_ruamel_dict kvs) = stripWrapDict kvs
  | PyDict.nil => rfl
  | PyDict.cons k v rest => by
    simp [process_for_yaml_ruamel_dict, stripWrapDict, stripWrap_process_ruamel v,
      stripWrap_process_ruamel_dict rest]
end

mutual
/-- Under the common abstraction of the two wrapper classes, the pyyaml
and ruamel implementations compute the same transformation. -/
theorem canon_process_agree : (v : PyVal) →
    canonVal (process_for_yaml_v2 v) = canonVal (process_for_yaml_ruamel v)
  | PyVal.vstr w s => by
    by_cases h : '\n' ∈ s <;>
      simp [process_for_yaml_v2, process_for_yaml_ruamel, canonVal, canonWrap, h]
  | PyVal.vint _ => rfl
  | PyVal.vbool _ => rfl
  | PyVal.vnone => rfl
  | PyVal.vlist xs => by
    simp [process_for_yaml_v2, process_for_yaml_ruamel, canonVal,
      canon_process_agree_list xs]
  | PyVal.vdict kvs => by
    simp [process_for_yaml_v2, process_for_yaml_ruamel, canonVal,
      canon_process_agree_dict kvs]
/-- List case of `canon_process_agree`. -/
theorem canon_process_agree_list : (xs : PyList) →
    canonValList (process_for_yaml_v2_list xs) =
      canonValList (process_for_yaml_ruamel_list xs)
  | PyList.nil => rfl
  | PyList.cons x xs => by
    simp [process_for_yaml_v2_list, process_for_yaml_ruamel_list, canonValList,
      canon_process_agree x, canon_process_agree_list xs]
/-- Dict case of `canon_process_agree`. -/
theorem canon_process_agree_dict : (kvs : PyDict) →
    canonValDict (process_for_yaml_v2_dict kvs) =
      canonValDict (process_for_yaml_ruamel_dict kvs)
  | PyDict.nil => rfl
  | PyDict.cons k v rest => by
    simp [process_for_yaml_v2_dict, process_for_yaml_ruamel_dict, canonValDict,
      canon_process_agree v, canon_process_agree_dict rest]
end

/-- Claim C8.  For every value built from dicts, lists, strings and other
atoms, `process_for_yaml` preserves the whole structure — the same dict
keys, the same list lengths and order, and character-for-character equal
strings: mapping every string of the output back to a plain string yields
the input as plain data, for the pyyaml and the ruamel implementation
alike.  Only the representation class of newline-containing strings
changes. -/
theorem process_for_yaml_preserves_value (v : PyVal) :
    stripWrap (process_for_yaml_v2 v) = stripWrap v ∧
    stripWrap (process_for_yaml_ruamel v) = stripWrap v :=
  ⟨stripWrap_process_v2 v, stripWrap_process_ruamel v⟩

/-- Claim C9.  The pyyaml implementation of `process_for_yaml` (wrapping
in `LiteralStr`) and the ruamel implementation (wrapping in
`LiteralScalarString`) compute the same transformation: after identifying
the two literal-block wrapper classes their outputs are equal, and on a
plain string each wraps exactly when the string contains a newline. -/
theorem process_for_yaml_implementations_agree (v : PyVal) (s : List Char) :
    canonVal (process_for_yaml_v2 v) = canonVal (process_for_yaml_ruamel v) ∧
    process_for_yaml_v2 (PyVal.vstr StrWrap.plain s) =
      PyVal.vstr (if '\n' ∈ s then StrWrap.literalStr else StrWrap.plain) s ∧
    process_for_yaml_ruamel (PyVal.vstr StrWrap.plain s) =
      PyVal.vstr (if '\n' ∈ s then StrWrap.literalScalarString else StrWrap.plain) s := by
  refine ⟨canon_process_agree v, ?_, ?_⟩
  · by_cases h : '\n' ∈ s <;> simp [process_for_yaml_v2, h]
  · by_cases h : '\n' ∈ s <;> simp [process_for_yaml_ruamel, h]

/-- Claim C10.  `update_readme_version` modifies the README content only
when the version pattern matches and the substitution produces content
different from the original; in every other case — pattern not found, or
substitution leaving the content unchanged — it returns with the README
exactly as it was. -/
theorem update_readme_version_writes_only_on_change (readme version : List Char) :
    update_readme_version readme version = readme ∨
    (searchVersion readme = true ∧
      substituteVersion version readme ≠ readme ∧
      update_readme_version readme version = substituteVersion version readme) := by
  unfold update_readme_version
  by_cases hs : searchVersion readme = true
  · rw [if_pos hs]
    by_cases he : substituteVersion version readme = readme
    · rw [if_pos he]
      exact Or.inl rfl
    · rw [if_neg he]
      exact Or.inr ⟨hs, he, rfl⟩
  · rw [if_neg hs]
    exact Or.inl rfl
